import Mathlib

/-!
Shallow embedding of the peer-to-peer networking core of the jormungandr
node (`src/jormungandr/src/network/mod.rs`), together with theorems
settling the specification claims about it.

Modelling conventions:
* `NodeId`, `SockAddr`, `CommsHandle`, block hashes and payloads are
  abstracted as `Nat` (they are opaque identifiers in the claims).
* The peer registry (`Peers` from `p2p/comm`, whose source is not part of
  the provided tree) is modelled from the spec as an association list
  `NodeId → CommsHandle`; the operations carried out by `network/mod.rs`
  are translated from that file directly.
* Rust `Result` becomes `Except`, `Option` stays `Option`; an `unwrap`
  that can panic is made explicit with the `PanicOr` type.
* The futures-0.1 combinator semantics used by `start` (`join4`
  short-circuits on the first constituent error, `future::ok` /
  `future::err` resolve immediately) are embedded as the small `Fut`
  type with `join4` defined accordingly.
-/

namespace Jormungandr

abbrev NodeId := Nat
abbrev SockAddr := Nat
abbrev CommsHandle := Nat

/-- One entry of topology's view: `topology::NodeData` restricted to the
fields used by `network/mod.rs` (its identity and optional address). -/
structure NodeData where
  id : NodeId
  address : Option SockAddr
deriving DecidableEq, Repr

/-- The peer registry contents: node identity mapped to the live
communication handle. -/
abbrev Registry := List (NodeId × CommsHandle)

/-- Well-formedness of the registry: no two entries share a node identity
(the spec's at-most-one-live-handle-per-identity invariant). -/
def RegistryWF (ps : Registry) : Prop :=
  (ps.map Prod.fst).Nodup

instance (ps : Registry) : Decidable (RegistryWF ps) := by
  unfold RegistryWF; infer_instance

/-- Modelled from the spec: `Peers::insert_peer` of `p2p/comm` (source not
under src). Spec §4.2: "if an entry exists for a different handle under the
same identity, the previous handle is dropped (connection superseded)". The
new handle replaces any entry under the same identity. -/
def insert_peer (id : NodeId) (handle : CommsHandle) (ps : Registry) : Registry :=
  (id, handle) :: ps.filter (fun e => e.1 != id)

/-- Modelled from the spec: `Peers::remove_peer` of `p2p/comm` (source not
under src). Spec §4.2: `remove(identity) -> optional PeerHandle`. Returns
the handle previously stored under the identity, if any, and the registry
without it. -/
def remove_peer (id : NodeId) (ps : Registry) : Option CommsHandle × Registry :=
  (ps.lookup id, ps.filter (fun e => e.1 != id))

/-! Generic association-list facts used by the registry theorems. -/

lemma lookup_eq_none_of_all_ne {ps : Registry} {id : NodeId}
    (h : ∀ e ∈ ps, e.1 ≠ id) : ps.lookup id = none := by
  induction ps with
  | nil => rfl
  | cons e rest ih =>
      obtain ⟨k, v⟩ := e
      have he : k ≠ id := h (k, v) (List.mem_cons_self _ rest)
      have hbeq : (id == k) = false := by
        simp only [beq_eq_false_iff_ne, ne_eq]
        exact fun hc => he hc.symm
      simp only [List.lookup, hbeq]
      exact ih fun x hx => h x (List.mem_cons_of_mem _ hx)

lemma lookup_filter_ne_self (ps : Registry) (id : NodeId) :
    (ps.filter (fun e => e.1 != id)).lookup id = none := by
  apply lookup_eq_none_of_all_ne
  intro e he
  have := List.of_mem_filter he
  simpa [bne_iff_ne] using this

lemma mem_map_fst_filter_ne {ps : Registry} {id : NodeId} :
    id ∉ (ps.filter (fun e => e.1 != id)).map Prod.fst := by
  intro hmem
  rcases List.mem_map.mp hmem with ⟨e, he, hfst⟩
  have := List.of_mem_filter he
  rw [hfst] at this
  simp at this

lemma registryWF_filter {ps : Registry} (hwf : RegistryWF ps) (p : NodeId × CommsHandle → Bool) :
    RegistryWF (ps.filter p) := by
  unfold RegistryWF at *
  exact List.Nodup.sublist ((List.filter_sublist ps).map Prod.fst) hwf

/-- Claim C4: the peer registry holds at most one live handle per node
identity, and inserting a handle under an identity that already has one
atomically supersedes (drops) the previous handle: after
`insert_peer id h`, the registry is still well formed, exactly one entry
carries `id`, that entry holds the new handle, and any distinct previous
handle for `id` is gone. -/
theorem registry_supersede_on_insert (ps : Registry) (id : NodeId) (hNew : CommsHandle)
    (hwf : RegistryWF ps) :
    RegistryWF (insert_peer id hNew ps) ∧
    ((insert_peer id hNew ps).map Prod.fst).count id = 1 ∧
    (insert_peer id hNew ps).lookup id = some hNew ∧
    (∀ hOld, hOld ≠ hNew → (id, hOld) ∉ insert_peer id hNew ps) ∧
    (∀ rid, RegistryWF (remove_peer rid ps).2) := by
  refine ⟨?_, ?_, ?_, ?_, ?_⟩
  · unfold RegistryWF insert_peer
    rw [List.map_cons]
    exact List.nodup_cons.mpr ⟨mem_map_fst_filter_ne, registryWF_filter hwf _⟩
  · unfold insert_peer
    rw [List.map_cons, List.count_cons_self]
    have : ((ps.filter (fun e => e.1 != id)).map Prod.fst).count id = 0 :=
      List.count_eq_zero.mpr mem_map_fst_filter_ne
    omega
  · unfold insert_peer
    simp [List.lookup]
  · intro hOld hne hmem
    unfold insert_peer at hmem
    rcases List.mem_cons.mp hmem with h | h
    · exact hne (congrArg Prod.snd h)
    · have := List.of_mem_filter h
      simp at this
  · intro rid
    exact registryWF_filter hwf _

/-- Claim C4 witness at a concrete registry. -/
theorem registry_supersede_on_insert_witness :
    RegistryWF [(1, 10), (2, 11)] ∧
    ((insert_peer 1 20 [(1, 10), (2, 11)]).map Prod.fst).count 1 = 1 ∧
    (insert_peer 1 20 [(1, 10), (2, 11)]).lookup 1 = some 20 := by
  have h := registry_supersede_on_insert [(1, 10), (2, 11)] 1 20 (by decide)
  exact ⟨by decide, h.2.1, h.2.2.1⟩

/-! ### Bootstrap and block fetch (`trusted_peers_shuffled`, `bootstrap`, `fetch_block`) -/

/-- One configured trusted peer, restricted to the fields `network/mod.rs`
reads: the `address` field holds the result of `address.to_socketaddr()`,
which is `none` when the configured multiaddress does not resolve to a
socket address. -/
structure TrustedPeer where
  id : NodeId
  address : Option SockAddr
deriving DecidableEq, Repr

/-- Translation of `trusted_peers_shuffled` (mod.rs lines 420-429): keep
the trusted peers whose address resolves to a socket address (`filter_map`)
and shuffle them. The random shuffle is abstracted as a function argument;
theorems that depend on it assume it permutes its input. -/
def trusted_peers_shuffled (shuffle : List SockAddr → List SockAddr)
    (tps : List TrustedPeer) : List SockAddr :=
  shuffle (tps.filterMap TrustedPeer.address)

/-- The `FetchBlockError` enum of mod.rs lines 515-519. -/
inductive FetchBlockError where
  | noTrustedPeers
  | couldNotDownloadBlock (block : Nat)
deriving DecidableEq, Repr

/-- The peer loop inside `fetch_block` (mod.rs lines 491-504): try each
address in order with `grpc::fetch_block` (abstracted as `fetchFromPeer`,
`none` meaning the attempt failed), stop at the first success. Returns the
first block obtained, if any, together with the list of addresses actually
attempted, in order. -/
def fetch_loop (fetchFromPeer : SockAddr → Option Nat) :
    List SockAddr → Option Nat × List SockAddr
  | [] => (none, [])
  | a :: rest =>
    match fetchFromPeer a with
    | some b => (some b, [a])
    | none =>
      let (r, tried) := fetch_loop fetchFromPeer rest
      (r, a :: tried)

/-- Translation of `fetch_block` (mod.rs lines 474-513): empty trusted-peer
list fails immediately with `NoTrustedPeers`; otherwise the shuffled
resolvable addresses are tried in order and exhaustion yields
`CouldNotDownloadBlock` carrying the requested hash. The second component
is the list of network attempts made, in order. -/
def fetch_block (shuffle : List SockAddr → List SockAddr)
    (fetchFromPeer : SockAddr → Option Nat)
    (tps : List TrustedPeer) (hash : Nat) :
    Except FetchBlockError Nat × List SockAddr :=
  if tps.isEmpty then (.error .noTrustedPeers, [])
  else
    match fetch_loop fetchFromPeer (trusted_peers_shuffled shuffle tps) with
    | (some b, tried) => (.ok b, tried)
    | (none, tried) => (.error (.couldNotDownloadBlock hash), tried)

/-- Claim C7: with an empty trusted-peer list, `fetch_block` returns
`NoTrustedPeers` and makes zero network attempts, for every shuffle
function, every peer behavior and every requested hash. -/
theorem fetch_block_no_trusted_peers (shuffle : List SockAddr → List SockAddr)
    (fetchFromPeer : SockAddr → Option Nat) (hash : Nat) :
    fetch_block shuffle fetchFromPeer [] hash =
      (.error FetchBlockError.noTrustedPeers, []) := by
  rfl

/-- Outcome of `bootstrap::bootstrap_from_peer` for one peer, as matched by
`bootstrap` (mod.rs lines 452-464): a connect error
(`bootstrap::Error::Connect`), any other bootstrap error, or success. -/
inductive PeerBootstrapResult where
  | connectError
  | otherError
  | success
deriving DecidableEq, Repr

/-- The peer loop of `bootstrap` (mod.rs lines 445-465): attempt each
address in order; a connect error or any other error is logged and the loop
continues; the first success sets `bootstrapped` and breaks. Returns the
final `bootstrapped` flag and the list of addresses attempted, in order. -/
def bootstrap_loop (res : SockAddr → PeerBootstrapResult) :
    List SockAddr → Bool × List SockAddr
  | [] => (false, [])
  | a :: rest =>
    match res a with
    | .success => (true, [a])
    | .connectError =>
      let (b, tried) := bootstrap_loop res rest
      (b, a :: tried)
    | .otherError =>
      let (b, tried) := bootstrap_loop res rest
      (b, a :: tried)

/-- Translation of `bootstrap` (mod.rs lines 431-468): run the peer loop
over the shuffled resolvable trusted-peer addresses and return whether any
peer succeeded together with the attempts made. -/
def bootstrap (shuffle : List SockAddr → List SockAddr)
    (res : SockAddr → PeerBootstrapResult)
    (tps : List TrustedPeer) : Bool × List SockAddr :=
  bootstrap_loop res (trusted_peers_shuffled shuffle tps)

lemma bootstrap_loop_eq (res : SockAddr → PeerBootstrapResult) (l : List SockAddr) :
    bootstrap_loop res l =
      (l.any (fun a => decide (res a = .success)),
       l.take (l.findIdx (fun a => decide (res a = .success)) + 1)) := by
  induction l with
  | nil => rfl
  | cons a rest ih =>
      rcases hres : res a with _ | _ | _ <;>
        simp [bootstrap_loop, hres, ih, List.findIdx_cons, List.take_succ_cons]

/-- Claim C5: `bootstrap` walks the shuffled trusted-peer list strictly
sequentially, treats connect errors and any other per-peer error as soft
(the loop continues past them), stops at the first succeeding peer (the
attempt list is the prefix up to and including the first success, or the
whole list when none succeeds), and returns true iff some peer succeeded.
The concrete scenario [A fails-connect, B succeeds, C] returns true having
attempted exactly A then B. -/
theorem bootstrap_sequential_first_success :
    (∀ (shuffle : List SockAddr → List SockAddr)
       (res : SockAddr → PeerBootstrapResult) (tps : List TrustedPeer),
       bootstrap shuffle res tps =
         ((trusted_peers_shuffled shuffle tps).any (fun a => decide (res a = .success)),
          (trusted_peers_shuffled shuffle tps).take
            ((trusted_peers_shuffled shuffle tps).findIdx
              (fun a => decide (res a = .success)) + 1))) ∧
    (∀ (shuffle : List SockAddr → List SockAddr)
       (res : SockAddr → PeerBootstrapResult) (tps : List TrustedPeer),
       (bootstrap shuffle res tps).1 = true ↔
         ∃ a ∈ trusted_peers_shuffled shuffle tps, res a = .success) ∧
    bootstrap_loop
      (fun a => if a = 1 then .connectError else if a = 2 then .success else .otherError)
      [1, 2, 3] = (true, [1, 2]) := by
  refine ⟨?_, ?_, by decide⟩
  · intro shuffle res tps
    exact bootstrap_loop_eq res _
  · intro shuffle res tps
    rw [show (bootstrap shuffle res tps).1 =
        ((trusted_peers_shuffled shuffle tps).any fun a => decide (res a = .success)) from
      congrArg Prod.fst (bootstrap_loop_eq res _)]
    simp [List.any_eq_true]

lemma fetch_loop_all_fail (f : SockAddr → Option Nat) (l : List SockAddr)
    (hfail : ∀ a ∈ l, f a = none) : fetch_loop f l = (none, l) := by
  induction l with
  | nil => rfl
  | cons a rest ih =>
      have ha : f a = none := hfail a (List.mem_cons_self _ _)
      simp [fetch_loop, ha, ih fun x hx => hfail x (List.mem_cons_of_mem _ hx)]

/-- Claim C3, counterexample: a non-empty trusted-peer list whose single
peer has an address that does not resolve to a socket address
(`to_socketaddr` returns none). Every peer attempt fails (vacuously: no
attempt is made), `fetch_block` returns `CouldNotDownloadBlock` with the
hash, yet the number of attempts is 0, not the configured trusted-peer
count 1: `trusted_peers_shuffled` drops unresolvable peers via
`filter_map`. -/
theorem fetch_block_attempt_count_counterexample :
    ([⟨7, none⟩] : List TrustedPeer) ≠ [] ∧
    fetch_block id (fun _ => none) [⟨7, none⟩] 3 =
      (.error (.couldNotDownloadBlock 3), []) ∧
    ([] : List SockAddr).length = 0 ∧
    ([⟨7, none⟩] : List TrustedPeer).length = 1 := by
  exact ⟨by decide, rfl, rfl, rfl⟩

/-- Claim C3, amended: on a non-empty trusted-peer list where every peer
attempt fails, `fetch_block` returns `CouldNotDownloadBlock` carrying the
requested hash after exactly one attempt per trusted peer whose configured
address resolves to a socket address, the attempts being exactly the
shuffled list (a permutation of the resolvable addresses). -/
theorem fetch_block_all_fail (shuffle : List SockAddr → List SockAddr)
    (fetchFromPeer : SockAddr → Option Nat) (tps : List TrustedPeer) (hash : Nat)
    (hne : tps ≠ [])
    (hperm : (trusted_peers_shuffled shuffle tps).Perm (tps.filterMap TrustedPeer.address))
    (hfail : ∀ a ∈ trusted_peers_shuffled shuffle tps, fetchFromPeer a = none) :
    fetch_block shuffle fetchFromPeer tps hash =
      (.error (.couldNotDownloadBlock hash), trusted_peers_shuffled shuffle tps) ∧
    (trusted_peers_shuffled shuffle tps).length =
      (tps.filterMap TrustedPeer.address).length := by
  constructor
  · unfold fetch_block
    rw [if_neg (by simpa [List.isEmpty_iff] using hne)]
    rw [fetch_loop_all_fail fetchFromPeer _ hfail]
  · exact hperm.length_eq

/-- Claim C3 witness: two trusted peers with resolvable addresses, both
failing; two attempts are made, in shuffled order. -/
theorem fetch_block_all_fail_witness :
    fetch_block (fun l => l.reverse) (fun _ => none)
        [⟨1, some 5⟩, ⟨2, some 6⟩] 9 =
      (.error (.couldNotDownloadBlock 9), [6, 5]) ∧
    ([6, 5] : List SockAddr).length = 2 := by
  have h := fetch_block_all_fail (fun l => l.reverse) (fun _ => none)
    [⟨1, some 5⟩, ⟨2, some 6⟩] 9 (by decide)
    (by exact List.reverse_perm _) (by intro a _; rfl)
  refine ⟨?_, by decide⟩
  have h1 := h.1
  simpa [trusted_peers_shuffled, List.filterMap] using h1

/-! ### The `start` future and the futures-0.1 `join4` combinator (claim C2) -/

/-- Resolution behavior of a futures-0.1 future as far as `start` is
concerned: resolves immediately with Ok (`future::ok`, or a stream that
finishes), resolves immediately with Err (`future::err`), or stays pending
until node shutdown (listener, command loop, interval timer). -/
inductive Fut where
  | done
  | failed
  | runs
deriving DecidableEq, Repr

/-- Semantics of futures-0.1 `Future::join4`: polls all four constituents;
as soon as any one resolves with an error, the joined future resolves with
that error and the remaining constituents are dropped (cancelled). It
resolves Ok only when all four are Ok, and stays pending otherwise. -/
def join4 (a b c d : Fut) : Fut :=
  if a = .failed ∨ b = .failed ∨ c = .failed ∨ d = .failed then .failed
  else if a = .done ∧ b = .done ∧ c = .done ∧ d = .done then .done
  else .runs

/-- Listen configuration cases distinguished by `start`
(mod.rs lines 216-236). -/
inductive ListenConfig where
  | noListen
  | grpcListenOk
  | grpcListenFail
deriving DecidableEq, Repr

/-- The `listener` future built by `start`: no configured listen address
gives `future::ok(())`; a successful `run_listen_socket` gives the accept
loop, which runs until shutdown; a listen error is logged and gives
`future::err(())`. -/
def listenerFut : ListenConfig → Fut
  | .noListen => .done
  | .grpcListenOk => .runs
  | .grpcListenFail => .failed

/-- The tail of `start` (mod.rs line 287):
`listener.join4(connections, handle_cmds, gossip)`. The `connections`
stream over initial addresses finishes after spawning its connection
tasks (`Fut.done`); the command loop and gossip interval run until
shutdown (`Fut.runs`). -/
def network_task (lc : ListenConfig) : Fut :=
  join4 (listenerFut lc) .done .runs .runs

/-- Claim C2, counterexample: when opening the listen socket fails, the
joined network future does not keep the other three activities running
until shutdown — `future::err(())` makes `join4` resolve with the error
immediately, so the whole network task ends. -/
theorem listen_failure_kills_network_task :
    network_task .grpcListenFail = .failed ∧ Fut.failed ≠ Fut.runs := by
  exact ⟨rfl, by decide⟩

/-- Claim C2, amended: a listen failure is logged, but it is not confined
to the inbound-accept path: the error short-circuits the `join4` of the
four activities, terminating the connection stream, the command
dispatcher and the gossip tick together with it. With a working listener
or no listener configured, the network task runs until shutdown. -/
theorem listen_failure_short_circuits_join :
    network_task .grpcListenFail = .failed ∧
    network_task .grpcListenOk = .runs ∧
    network_task .noListen = .runs := by
  exact ⟨rfl, rfl, rfl⟩

/-! ### Propagation messages and the send closures (claims C1, C10) -/

/-- The `PropagateMsg` enum from intercom as used by
`handle_propagation_msg`: a block (header) announcement or a fragment. -/
inductive PropagateMsg where
  | block (header : Nat)
  | fragment (frag : Nat)
deriving DecidableEq, Repr

/-- Result of a Rust expression that either produces a value or panics
(models `.unwrap()` on a `Result`). -/
inductive PanicOr (α : Type) where
  | panicked
  | ok (val : α)
deriving DecidableEq, Repr

abbrev SendError := Nat

/-- Rust `Result::unwrap`: panics on `Err`, yields the value on `Ok`. -/
def unwrapResult : Except SendError Unit → PanicOr Unit
  | .error _ => .panicked
  | .ok _ => .ok ()

/-- The `use_comms` closure passed by `handle_propagation_msg`
(mod.rs lines 340-343): match on the message and unwrap the corresponding
`try_send` result on the fresh comms handle. The results of
`try_send_block_announcement` and `try_send_fragment` are abstracted as
arguments. -/
def propagation_use_comms (msg : PropagateMsg)
    (sendBlockRes sendFragRes : Except SendError Unit) : PanicOr Unit :=
  match msg with
  | .block _ => unwrapResult sendBlockRes
  | .fragment _ => unwrapResult sendFragRes

/-- The `use_comms` closure passed by `send_gossip`
(mod.rs lines 354-356): unwrap the `try_send_gossip` result on the fresh
comms handle. -/
def gossip_use_comms (sendGossipRes : Except SendError Unit) : PanicOr Unit :=
  unwrapResult sendGossipRes

/-- Claim C10: in the connect-and-deliver fallback, the enqueue onto the
freshly created comms handle is unwrapped, so the fallback panics exactly
when the corresponding try_send returns an error: it never survives a
failed send to a new handle. -/
theorem fallback_send_unwrap_panics :
    (∀ (h : Nat) (sb sf : Except SendError Unit),
       propagation_use_comms (.block h) sb sf = .panicked ↔ ∃ e, sb = .error e) ∧
    (∀ (f : Nat) (sb sf : Except SendError Unit),
       propagation_use_comms (.fragment f) sb sf = .panicked ↔ ∃ e, sf = .error e) ∧
    (∀ (g : Except SendError Unit),
       gossip_use_comms g = .panicked ↔ ∃ e, g = .error e) := by
  refine ⟨fun h sb sf => ?_, fun f sb sf => ?_, fun g => ?_⟩
  · cases sb <;> simp [propagation_use_comms, unwrapResult]
  · cases sf <;> simp [propagation_use_comms, unwrapResult]
  · cases g <;> simp [gossip_use_comms, unwrapResult]

/-! ### Command dispatcher (claim C9) -/

/-- The `NetworkMsg` commands consumed by `handle_network_input`
(mod.rs lines 295-317). -/
inductive NetworkMsg where
  | propagateMsg (msg : PropagateMsg)
  | getBlocks (blockIds : List Nat)
  | getNextBlock (nodeId : NodeId) (blockId : Nat)
  | pullHeadersMsg (nodeId : NodeId) (fromId toId : Nat)
  | peerStats
deriving DecidableEq, Repr

/-- Observable effect of dispatching one command: the peer-registry or
propagation operation invoked (or the one-shot stats reply). -/
inductive Dispatch where
  | propagated (msg : PropagateMsg)
  | fetchBlocks (blockIds : List Nat)
  | solicitBlocks (nodeId : NodeId) (blockIds : List Nat)
  | pullHeaders (nodeId : NodeId) (fromId toId : Nat)
  | statsReplied
deriving DecidableEq, Repr

/-- Translation of `handle_network_input` (mod.rs lines 290-318): drain
the inbound queue with `for_each`, matching each message to its operation.
`GetNextBlock` wraps the single block id into a one-element vector for
`solicit_blocks`; `PeerStats` answers through its one-shot reply channel. -/
def handle_network_input : List NetworkMsg → List Dispatch
  | [] => []
  | msg :: rest =>
    (match msg with
     | .propagateMsg m => Dispatch.propagated m
     | .getBlocks blockIds => Dispatch.fetchBlocks blockIds
     | .getNextBlock nodeId blockId => Dispatch.solicitBlocks nodeId [blockId]
     | .pullHeadersMsg nodeId fromId toId => Dispatch.pullHeaders nodeId fromId toId
     | .peerStats => Dispatch.statsReplied) :: handle_network_input rest

/-- Specification-side mapping from a command to the operation the spec
says it must dispatch to. -/
def dispatchOf : NetworkMsg → Dispatch
  | .propagateMsg m => .propagated m
  | .getBlocks blockIds => .fetchBlocks blockIds
  | .getNextBlock nodeId blockId => .solicitBlocks nodeId [blockId]
  | .pullHeadersMsg nodeId fromId toId => .pullHeaders nodeId fromId toId
  | .peerStats => .statsReplied

/-- Claim C9: the command dispatcher applies inbound commands in exactly
their enqueue order, one dispatch per command, each routed to the
corresponding operation (`PeerStats` through its one-shot reply); in
particular the i-th effect is the dispatch of the i-th command, and the
spec's three-command scenario is processed in that exact order. -/
theorem dispatcher_in_order :
    (∀ (msgs : List NetworkMsg) (i : Nat),
       (handle_network_input msgs)[i]? = (msgs[i]?).map dispatchOf) ∧
    (∀ (h1 n h2 : Nat),
       handle_network_input
         [.getBlocks [h1], .pullHeadersMsg n h1 h2, .peerStats] =
         [.fetchBlocks [h1], .pullHeaders n h1 h2, .statsReplied]) := by
  constructor
  · intro msgs
    induction msgs with
    | nil => intro i; simp [handle_network_input]
    | cons msg rest ih =>
        intro i
        have hstep : handle_network_input (msg :: rest) =
            dispatchOf msg :: handle_network_input rest := by
          cases msg <;> rfl
        rw [hstep]
        cases i with
        | zero => simp
        | succ j => simpa using ih j
  · intro h1 n h2
    rfl

/-! ### Connection resolution in `connect_and_propagate_with` (claims C6, C8) -/

/-- Modelled from the spec: `P2pTopology::evict_node` of `p2p/topology`
(source not under src). Spec §4.1: "evict_node(identity) removes a node
from the view". The topology is abstracted to the set of node identities
in its view. -/
def evict_node (id : NodeId) (topo : List NodeId) : List NodeId :=
  topo.filter (fun i => i != id)

/-- The part of the global state touched by the connection continuation:
the peer registry and the topology view (as the identities it contains). -/
structure NetState where
  peers : Registry
  topology : List NodeId
deriving DecidableEq, Repr

/-- Outcome of the `connecting` future of `client::connect`: the initial
connect failed, or it resolved with the remote's reported node identity. -/
inductive ConnectOutcome where
  | failed
  | resolved (remoteId : NodeId)
deriving DecidableEq, Repr

/-- Translation of the continuation attached to the `connecting` future in
`connect_and_propagate_with` (mod.rs lines 391-416). On connect failure
(`map_err`), the peer entry is removed and the identity evicted from
topology; the error goes no further because the whole chain is spawned
fire-and-forget (line 417). On resolution with a different identity than
expected, the stale identity is evicted from topology and the registry
entry is moved under the actual identity (or a warning is logged when the
entry is already gone); the connection is kept running either way. The
boolean is true iff the client connection keeps running afterwards. -/
def on_connecting_resolved (nodeId : NodeId) (outcome : ConnectOutcome)
    (st : NetState) : NetState × Bool :=
  match outcome with
  | .failed =>
      ({ peers := (remove_peer nodeId st.peers).2,
         topology := evict_node nodeId st.topology }, false)
  | .resolved remoteId =>
      if remoteId != nodeId then
        match remove_peer nodeId st.peers with
        | (some comms, rest) =>
            ({ peers := insert_peer remoteId comms rest,
               topology := evict_node nodeId st.topology }, true)
        | (none, rest) =>
            ({ peers := rest,
               topology := evict_node nodeId st.topology }, true)
      else (st, true)

/-- Claim C6: when the connection resolves and the remote's reported
identity differs from the expected one, the connection is not failed, the
stale identity is evicted from topology, the registry entry under the
stale identity is removed, and the existing handle is re-inserted under
the actual remote identity. -/
theorem identity_mismatch_reconciliation (nodeId remoteId : NodeId)
    (comms : CommsHandle) (st : NetState) (hne : remoteId ≠ nodeId)
    (hmem : st.peers.lookup nodeId = some comms) :
    (on_connecting_resolved nodeId (.resolved remoteId) st).2 = true ∧
    (on_connecting_resolved nodeId (.resolved remoteId) st).1.topology =
      evict_node nodeId st.topology ∧
    nodeId ∉ (on_connecting_resolved nodeId (.resolved remoteId) st).1.topology ∧
    (on_connecting_resolved nodeId (.resolved remoteId) st).1.peers.lookup nodeId = none ∧
    (on_connecting_resolved nodeId (.resolved remoteId) st).1.peers.lookup remoteId =
      some comms := by
  have hbne : (remoteId != nodeId) = true := bne_iff_ne.mpr hne
  have hred : on_connecting_resolved nodeId (.resolved remoteId) st =
      ({ peers := insert_peer remoteId comms (st.peers.filter (fun e => e.1 != nodeId)),
         topology := evict_node nodeId st.topology }, true) := by
    simp only [on_connecting_resolved, hbne, if_true, remove_peer, hmem]
  rw [hred]
  refine ⟨rfl, rfl, ?_, ?_, ?_⟩
  · simp [evict_node]
  · show (insert_peer remoteId comms (st.peers.filter (fun e => e.1 != nodeId))).lookup
        nodeId = none
    unfold insert_peer
    have hne2 : (nodeId == remoteId) = false := by
      simp only [beq_eq_false_iff_ne, ne_eq]
      exact fun hc => hne hc.symm
    simp only [List.lookup, hne2]
    apply lookup_eq_none_of_all_ne
    intro e he
    have he2 := List.mem_of_mem_filter he
    have := List.of_mem_filter he2
    simpa [bne_iff_ne] using this
  · simp [insert_peer, List.lookup]

/-- Claim C6 witness at a concrete mismatched connection. -/
theorem identity_mismatch_reconciliation_witness :
    (on_connecting_resolved 1 (.resolved 2) ⟨[(1, 10)], [1, 3]⟩).1.peers.lookup 2 =
      some 10 ∧
    (on_connecting_resolved 1 (.resolved 2) ⟨[(1, 10)], [1, 3]⟩).1.peers.lookup 1 =
      none ∧
    (on_connecting_resolved 1 (.resolved 2) ⟨[(1, 10)], [1, 3]⟩).2 = true := by
  have h := identity_mismatch_reconciliation 1 2 10 ⟨[(1, 10)], [1, 3]⟩
    (by decide) (by decide)
  exact ⟨h.2.2.2.2, h.2.2.2.1, h.1⟩

/-- Claim C8: a failure of the initial connect started by the propagation
fallback removes the target's entry from the peer registry and evicts the
target identity from topology; the handler is a total function whose error
was consumed by `map_err` inside a task spawned fire-and-forget, so
nothing surfaces as a node-level error (only the connection task itself
ends, second component false). -/
theorem connect_failure_soft_cleanup (nodeId : NodeId) (st : NetState) :
    on_connecting_resolved nodeId .failed st =
      ({ peers := st.peers.filter (fun e => e.1 != nodeId),
         topology := st.topology.filter (fun i => i != nodeId) }, false) ∧
    (on_connecting_resolved nodeId .failed st).1.peers.lookup nodeId = none ∧
    nodeId ∉ (on_connecting_resolved nodeId .failed st).1.topology := by
  refine ⟨rfl, ?_, ?_⟩
  · exact lookup_filter_ne_self st.peers nodeId
  · show nodeId ∉ st.topology.filter (fun i => i != nodeId)
    simp

/-! ### Propagation rounds and the connect-and-deliver fallback (claim C1) -/

/-- Observable event of a propagation round, in program order: starting an
outbound connection attempt (`client::connect`), enqueuing a delivery on a
comms handle (`try_send_*`), publishing a handle into the registry
(`insert_peer`), or skipping a node that has no IP address (the early
return of `connect_and_propagate_with`, mod.rs lines 369-378). -/
inductive Event where
  | connectAttempt (id : NodeId)
  | deliverBlock (id : NodeId) (header : Nat)
  | deliverFragment (id : NodeId) (frag : Nat)
  | registerPeer (id : NodeId)
  | skipNoAddress (id : NodeId)
deriving DecidableEq, Repr

/-- The node an event concerns. -/
def Event.target : Event → NodeId
  | .connectAttempt id => id
  | .deliverBlock id _ => id
  | .deliverFragment id _ => id
  | .registerPeer id => id
  | .skipNoAddress id => id

/-- Whether the event is a delivery of an item. -/
def Event.isDelivery : Event → Bool
  | .deliverBlock _ _ => true
  | .deliverFragment _ _ => true
  | _ => false

/-- The delivery event the `use_comms` closure of `handle_propagation_msg`
enqueues for a target: the original header or fragment of the message. -/
def deliveryEvent (msg : PropagateMsg) (id : NodeId) : Event :=
  match msg with
  | .block h => .deliverBlock id h
  | .fragment f => .deliverFragment id f

/-- Trace of `connect_and_propagate_with` (mod.rs lines 361-418) up to the
spawn: a node without an IP address is skipped with a debug log and an
early return; otherwise `client::connect` starts the connection attempt,
`use_comms` enqueues the item on the fresh handle, and only then is the
handle registered with `insert_peer`. -/
def connect_and_propagate_with (node : NodeData) (useComms : Event) : List Event :=
  match node.address with
  | none => [Event.skipNoAddress node.id]
  | some _ =>
      [Event.connectAttempt node.id, useComms, Event.registerPeer node.id]

/-- Modelled from the spec: `Peers::propagate_block` of `p2p/comm` (source
not under src). Spec §4.2: "attempt delivery to each target with a
currently live handle and return the subset of targets for which no live
handle existed (the unreached set)". Returns the direct-delivery events
and `Err(unreached)` when some target had no live handle. -/
def propagate_block (ps : Registry) (targets : List NodeData) (header : Nat) :
    List Event × Except (List NodeData) Unit :=
  ((targets.filter (fun m => (ps.lookup m.id).isSome)).map
      (fun m => Event.deliverBlock m.id header),
   if (targets.filter (fun m => (ps.lookup m.id).isNone)).isEmpty then .ok ()
   else .error (targets.filter (fun m => (ps.lookup m.id).isNone)))

/-- Modelled from the spec: `Peers::propagate_fragment` of `p2p/comm`
(source not under src), same shape as `propagate_block`. -/
def propagate_fragment (ps : Registry) (targets : List NodeData) (frag : Nat) :
    List Event × Except (List NodeData) Unit :=
  ((targets.filter (fun m => (ps.lookup m.id).isSome)).map
      (fun m => Event.deliverFragment m.id frag),
   if (targets.filter (fun m => (ps.lookup m.id).isNone)).isEmpty then .ok ()
   else .error (targets.filter (fun m => (ps.lookup m.id).isNone)))

/-- Translation of `handle_propagation_msg` (mod.rs lines 320-346): take
the topology view, run the registry's propagate operation, and for each
node it reports unreached, run the connect-and-deliver fallback with the
original item. -/
def handle_propagation_msg (msg : PropagateMsg) (view : List NodeData)
    (ps : Registry) : List Event :=
  let pr := match msg with
    | .block h => propagate_block ps view h
    | .fragment f => propagate_fragment ps view f
  match pr.2 with
  | .ok _ => pr.1
  | .error unreached =>
      pr.1 ++ unreached.flatMap
        (fun m => connect_and_propagate_with m (deliveryEvent msg m.id))

/-- The set of targets the propagate operation reports unreached for this
round (empty when it returns Ok). -/
def unreachedOf (msg : PropagateMsg) (view : List NodeData) (ps : Registry) :
    List NodeData :=
  match (match msg with
         | .block h => propagate_block ps view h
         | .fragment f => propagate_fragment ps view f).2 with
  | .ok _ => []
  | .error u => u

lemma deliveryEvent_target (msg : PropagateMsg) (i : NodeId) :
    (deliveryEvent msg i).target = i := by
  cases msg <;> rfl

lemma deliveryEvent_isDelivery (msg : PropagateMsg) (i : NodeId) :
    (deliveryEvent msg i).isDelivery = true := by
  cases msg <;> rfl

lemma target_of_mem_fallback {m : NodeData} {msg : PropagateMsg} {e : Event}
    (he : e ∈ connect_and_propagate_with m (deliveryEvent msg m.id)) :
    e.target = m.id := by
  unfold connect_and_propagate_with at he
  cases haddr : m.address with
  | none =>
      rw [haddr] at he
      simp only [List.mem_singleton] at he
      subst he; rfl
  | some a =>
      rw [haddr] at he
      simp only [List.mem_cons, List.not_mem_nil, or_false] at he
      rcases he with rfl | rfl | rfl
      · rfl
      · exact deliveryEvent_target msg m.id
      · rfl

lemma unreachedOf_eq (msg : PropagateMsg) (view : List NodeData) (ps : Registry) :
    unreachedOf msg view ps = view.filter (fun m => (ps.lookup m.id).isNone) := by
  cases msg with
  | block h =>
      unfold unreachedOf propagate_block
      by_cases he : (view.filter (fun m => (ps.lookup m.id).isNone)).isEmpty = true
      · rw [if_pos he]
        exact (List.isEmpty_iff.mp he).symm
      · rw [if_neg he]
  | fragment f =>
      unfold unreachedOf propagate_fragment
      by_cases he : (view.filter (fun m => (ps.lookup m.id).isNone)).isEmpty = true
      · rw [if_pos he]
        exact (List.isEmpty_iff.mp he).symm
      · rw [if_neg he]

lemma handle_propagation_msg_eq (msg : PropagateMsg) (view : List NodeData)
    (ps : Registry)
    (hne : view.filter (fun m => (ps.lookup m.id).isNone) ≠ []) :
    handle_propagation_msg msg view ps =
      (view.filter (fun m => (ps.lookup m.id).isSome)).map
        (fun m => deliveryEvent msg m.id) ++
      (view.filter (fun m => (ps.lookup m.id).isNone)).flatMap
        (fun m => connect_and_propagate_with m (deliveryEvent msg m.id)) := by
  have hfalse : (view.filter (fun m => (ps.lookup m.id).isNone)).isEmpty = false := by
    cases hu : view.filter (fun m => (ps.lookup m.id).isNone) with
    | nil => exact absurd hu hne
    | cons x xs => rfl
  cases msg with
  | block h =>
      unfold handle_propagation_msg propagate_block
      simp only [hfalse, Bool.false_eq_true, if_false, deliveryEvent]
  | fragment f =>
      unfold handle_propagation_msg propagate_fragment
      simp only [hfalse, Bool.false_eq_true, if_false, deliveryEvent]

lemma exists_split_of_nodup_mem {l : List NodeData} {n : NodeData}
    (hnd : (l.map NodeData.id).Nodup) (hmem : n ∈ l) :
    ∃ u1 u2, l = u1 ++ n :: u2 ∧ (∀ m ∈ u1, m.id ≠ n.id) ∧
      (∀ m ∈ u2, m.id ≠ n.id) := by
  obtain ⟨u1, u2, rfl⟩ := List.append_of_mem hmem
  refine ⟨u1, u2, rfl, ?_, ?_⟩
  · intro m hm heq
    rw [List.map_append, List.map_cons] at hnd
    have hdisj := (List.nodup_append.mp hnd).2.2
    exact hdisj (List.mem_map_of_mem NodeData.id hm)
      (heq ▸ List.mem_cons_self n.id (u2.map NodeData.id))
  · intro m hm heq
    rw [List.map_append, List.map_cons] at hnd
    have hcons := (List.nodup_append.mp hnd).2.1
    exact (List.nodup_cons.mp hcons).1 (heq ▸ List.mem_map_of_mem NodeData.id hm)

/-- Claim C1, counterexample: an unreached target without a known IP
address gets no connection attempt at all and the item is dropped for it —
`connect_and_propagate_with` returns early for address-less nodes. The
node ⟨1, none⟩ is reported unreached, yet the round makes zero connect
attempts and zero deliveries for it. -/
theorem propagation_unreached_no_address_counterexample :
    unreachedOf (.block 7) [⟨1, none⟩] [] = [⟨1, none⟩] ∧
    handle_propagation_msg (.block 7) [⟨1, none⟩] [] = [Event.skipNoAddress 1] ∧
    (handle_propagation_msg (.block 7) [⟨1, none⟩] []).count
      (Event.connectAttempt 1) = 0 ∧
    ((handle_propagation_msg (.block 7) [⟨1, none⟩] []).filter
      (fun e => e.isDelivery && e.target == 1)) = [] := by
  exact ⟨rfl, rfl, rfl, rfl⟩

/-- Claim C1, amended: in a propagation round over a duplicate-free view,
every target reported unreached that has a network address gets exactly
one new outbound connection attempt and exactly one delivery of the
original item, enqueued through the new handle strictly before the handle
is registered; the item is neither delivered twice to that target nor
dropped for it. (Targets without an address are skipped, per the
counterexample.) -/
theorem propagation_unreached_with_address (msg : PropagateMsg)
    (view : List NodeData) (ps : Registry) (n : NodeData) (a : SockAddr)
    (hnd : (view.map NodeData.id).Nodup)
    (hmem : n ∈ unreachedOf msg view ps)
    (haddr : n.address = some a) :
    ∃ pre post,
      handle_propagation_msg msg view ps =
        pre ++ Event.connectAttempt n.id :: deliveryEvent msg n.id ::
          Event.registerPeer n.id :: post ∧
      (∀ e ∈ pre, e.target ≠ n.id) ∧
      (∀ e ∈ post, e.target ≠ n.id) ∧
      (handle_propagation_msg msg view ps).count (Event.connectAttempt n.id) = 1 ∧
      (handle_propagation_msg msg view ps).filter
        (fun e => e.isDelivery && e.target == n.id) = [deliveryEvent msg n.id] := by
  rw [unreachedOf_eq] at hmem
  set u := view.filter (fun m => (ps.lookup m.id).isNone) with hu
  have hneu : u ≠ [] := List.ne_nil_of_mem hmem
  have hndu : (u.map NodeData.id).Nodup :=
    List.Nodup.sublist ((List.filter_sublist view).map NodeData.id) hnd
  obtain ⟨u1, u2, hsplit, hu1, hu2⟩ := exists_split_of_nodup_mem hndu hmem
  have htrace := handle_propagation_msg_eq msg view ps (hu ▸ hneu)
  rw [← hu] at htrace
  have hnLookup : (ps.lookup n.id).isNone = true := by
    have := List.of_mem_filter hmem
    simpa using this
  -- the direct deliveries target reached nodes only, never n
  have hdirect : ∀ e ∈ (view.filter (fun m => (ps.lookup m.id).isSome)).map
      (fun m => deliveryEvent msg m.id), e.target ≠ n.id := by
    intro e he heq
    rcases List.mem_map.mp he with ⟨m, hm, rfl⟩
    rw [deliveryEvent_target] at heq
    have hms : (ps.lookup m.id).isSome = true := by
      have := List.of_mem_filter hm
      simpa using this
    rw [heq] at hms
    rw [Option.isNone_iff_eq_none.mp hnLookup] at hms
    exact Bool.noConfusion hms
  have hseg : connect_and_propagate_with n (deliveryEvent msg n.id) =
      [Event.connectAttempt n.id, deliveryEvent msg n.id, Event.registerPeer n.id] := by
    unfold connect_and_propagate_with
    rw [haddr]
  have hbindu : u.flatMap (fun m => connect_and_propagate_with m (deliveryEvent msg m.id)) =
      u1.flatMap (fun m => connect_and_propagate_with m (deliveryEvent msg m.id)) ++
      (Event.connectAttempt n.id :: deliveryEvent msg n.id ::
        Event.registerPeer n.id :: u2.flatMap
          (fun m => connect_and_propagate_with m (deliveryEvent msg m.id))) := by
    rw [hsplit, List.flatMap_append, List.flatMap_cons, hseg]
    rfl
  have hfb1 : ∀ e ∈ u1.flatMap
      (fun m => connect_and_propagate_with m (deliveryEvent msg m.id)),
      e.target ≠ n.id := by
    intro e he
    rcases List.mem_flatMap.mp he with ⟨m, hm, hme⟩
    rw [target_of_mem_fallback hme]
    exact hu1 m hm
  have hfb2 : ∀ e ∈ u2.flatMap
      (fun m => connect_and_propagate_with m (deliveryEvent msg m.id)),
      e.target ≠ n.id := by
    intro e he
    rcases List.mem_flatMap.mp he with ⟨m, hm, hme⟩
    rw [target_of_mem_fallback hme]
    exact hu2 m hm
  refine ⟨(view.filter (fun m => (ps.lookup m.id).isSome)).map
      (fun m => deliveryEvent msg m.id) ++
      u1.flatMap (fun m => connect_and_propagate_with m (deliveryEvent msg m.id)),
    u2.flatMap (fun m => connect_and_propagate_with m (deliveryEvent msg m.id)),
    ?_, ?_, hfb2, ?_, ?_⟩
  · rw [htrace, hbindu, List.append_assoc]
  · intro e he
    rcases List.mem_append.mp he with h | h
    · exact hdirect e h
    · exact hfb1 e h
  · -- exactly one connect attempt for n
    rw [htrace, hbindu]
    rw [List.count_append, List.count_append]
    have hz1 : ((view.filter (fun m => (ps.lookup m.id).isSome)).map
        (fun m => deliveryEvent msg m.id)).count (Event.connectAttempt n.id) = 0 := by
      refine List.count_eq_zero.mpr fun hc => ?_
      exact hdirect _ hc rfl
    have hz2 : (u1.flatMap (fun m => connect_and_propagate_with m
        (deliveryEvent msg m.id))).count (Event.connectAttempt n.id) = 0 := by
      refine List.count_eq_zero.mpr fun hc => ?_
      exact hfb1 _ hc rfl
    have hz3 : (u2.flatMap (fun m => connect_and_propagate_with m
        (deliveryEvent msg m.id))).count (Event.connectAttempt n.id) = 0 := by
      refine List.count_eq_zero.mpr fun hc => ?_
      exact hfb2 _ hc rfl
    have hseg2 : (Event.connectAttempt n.id :: deliveryEvent msg n.id ::
        Event.registerPeer n.id :: u2.flatMap (fun m => connect_and_propagate_with m
          (deliveryEvent msg m.id))).count (Event.connectAttempt n.id) = 1 := by
      rw [List.count_cons_self, List.count_cons_of_ne, List.count_cons_of_ne, hz3]
      · intro hc; exact Event.noConfusion hc
      · cases msg <;> (intro hc; exact Event.noConfusion hc)
    rw [hz1, hz2, hseg2]
  · -- exactly one delivery for n
    rw [htrace, hbindu]
    rw [List.filter_append, List.filter_append]
    have hz1 : ((view.filter (fun m => (ps.lookup m.id).isSome)).map
        (fun m => deliveryEvent msg m.id)).filter
          (fun e => e.isDelivery && e.target == n.id) = [] := by
      refine List.filter_eq_nil_iff.mpr fun e he hc => ?_
      have := (Bool.and_eq_true _ _).mp hc
      exact hdirect e he (by simpa using this.2)
    have hz2 : (u1.flatMap (fun m => connect_and_propagate_with m
        (deliveryEvent msg m.id))).filter
          (fun e => e.isDelivery && e.target == n.id) = [] := by
      refine List.filter_eq_nil_iff.mpr fun e he hc => ?_
      have := (Bool.and_eq_true _ _).mp hc
      exact hfb1 e he (by simpa using this.2)
    have hz3 : (u2.flatMap (fun m => connect_and_propagate_with m
        (deliveryEvent msg m.id))).filter
          (fun e => e.isDelivery && e.target == n.id) = [] := by
      refine List.filter_eq_nil_iff.mpr fun e he hc => ?_
      have := (Bool.and_eq_true _ _).mp hc
      exact hfb2 e he (by simpa using this.2)
    have hseg2 : (Event.connectAttempt n.id :: deliveryEvent msg n.id ::
        Event.registerPeer n.id :: u2.flatMap (fun m => connect_and_propagate_with m
          (deliveryEvent msg m.id))).filter
          (fun e => e.isDelivery && e.target == n.id) = [deliveryEvent msg n.id] := by
      rw [List.filter_cons, List.filter_cons, List.filter_cons, hz3]
      cases msg <;> simp [Event.isDelivery, Event.target, deliveryEvent]
    rw [hz1, hz2, hseg2]
    rfl

/-- Claim C1 (amended) witness: one unreached node with an address; the
round is exactly connect, deliver, register for it. -/
theorem propagation_unreached_with_address_witness :
    ∃ pre post,
      handle_propagation_msg (.block 5) [⟨2, some 9⟩] [] =
        pre ++ Event.connectAttempt 2 :: deliveryEvent (.block 5) 2 ::
          Event.registerPeer 2 :: post ∧
      (∀ e ∈ pre, e.target ≠ 2) ∧
      (∀ e ∈ post, e.target ≠ 2) ∧
      (handle_propagation_msg (.block 5) [⟨2, some 9⟩] []).count
        (Event.connectAttempt 2) = 1 ∧
      (handle_propagation_msg (.block 5) [⟨2, some 9⟩] []).filter
        (fun e => e.isDelivery && e.target == 2) = [deliveryEvent (.block 5) 2] :=
  propagation_unreached_with_address (.block 5) [⟨2, some 9⟩] [] ⟨2, some 9⟩ 9
    (by decide) (by decide) rfl

end Jormungandr
